import Mathlib

/-!
Verification of the hisab-kitab invoice application (`src/app.py`) against its
natural-language specification.

Shallow embedding conventions:
* SQLite `REAL` columns and Python floats are modelled as exact rationals (`ℚ`);
  floating-point representation drift is outside the model.
* Python's `round(x, 2)` (round to nearest, ties to even) is modelled by
  `pyRoundInt`/`round2` below.
* Database tables are modelled as Lean lists of rows; a parameterized
  `SELECT ... WHERE` is a `List.filter`/`List.find?`, `ORDER BY id DESC LIMIT 1`
  is `List.argmax` on the `id` field.
* Python strings are Lean `String`s; slicing and splitting are modelled on the
  underlying `List Char` (`String.data`), matching Python's per-character
  semantics.
-/

namespace HisabKitab

/-! ## Monetary rounding (models Python `round(x, 2)`)

CPython's `round` on a float rounds to the nearest multiple of 10^-2 with ties
going to the even last digit (banker's rounding).  `pyRoundInt` is that rule for
rounding a rational to the nearest integer; `round2` applies it at 2 fractional
digits, as in `round(subtotal, 2)` at src/app.py line 243. -/

def pyRoundInt (q : ℚ) : ℤ :=
  if q - ⌊q⌋ < 1/2 then ⌊q⌋
  else if 1/2 < q - ⌊q⌋ then ⌊q⌋ + 1
  else if ⌊q⌋ % 2 = 0 then ⌊q⌋ else ⌊q⌋ + 1

def round2 (q : ℚ) : ℚ := pyRoundInt (q * 100) / 100

theorem pyRoundInt_intCast (n : ℤ) : pyRoundInt (n : ℚ) = n := by
  unfold pyRoundInt
  rw [Int.floor_intCast]
  norm_num

theorem round2_zero : round2 0 = 0 := by
  unfold round2
  rw [show ((0 : ℚ) * 100) = ((0 : ℤ) : ℚ) by norm_num, pyRoundInt_intCast]
  norm_num

/-! ## Decimal digit strings

Models Python's `str(n)` for a non-negative integer, `str.zfill`, and `int(s)`
for a plain digit string.  `natDigitsF` carries explicit fuel so that the
function is structurally recursive (and hence evaluates inside the kernel);
`natDigits n` with fuel `n + 1` always has enough fuel. -/

def digitChar (d : ℕ) : Char :=
  match d with
  | 0 => '0' | 1 => '1' | 2 => '2' | 3 => '3' | 4 => '4'
  | 5 => '5' | 6 => '6' | 7 => '7' | 8 => '8' | _ => '9'

def isDig (c : Char) : Bool := 48 ≤ c.toNat && c.toNat ≤ 57

def digitVal (c : Char) : ℕ := c.toNat - 48

def natDigitsF : ℕ → ℕ → List Char
  | 0, _ => []
  | f + 1, n => if n < 10 then [digitChar n] else natDigitsF f (n / 10) ++ [digitChar (n % 10)]

/-- Decimal digit list of `n`, most significant first: the model of Python `str(n)`. -/
def natDigits (n : ℕ) : List Char := natDigitsF (n + 1) n

/-- Model of Python `str(n)` for `n : ℕ`. -/
def pyStr (n : ℕ) : String := ⟨natDigits n⟩

/-- Model of Python `str.zfill(w)` for the sign-free strings used here: left-pad
with `'0'` up to width `w`. -/
def zfill (s : String) (w : ℕ) : String :=
  if s.data.length < w then ⟨List.replicate (w - s.data.length) '0' ++ s.data⟩ else s

/-- Model of Python `int(s)` restricted to plain digit strings (the only shape
`int` receives from this program): `some` of the value on a nonempty all-digit
string, `none` (an exception in Python) otherwise. -/
def parseNatDigits (l : List Char) : Option ℕ :=
  if !l.isEmpty && l.all isDig then some (l.foldl (fun a c => 10 * a + digitVal c) 0)
  else none

theorem isDig_digitChar (d : ℕ) : isDig (digitChar d) = true := by
  unfold digitChar
  split <;> rfl

theorem digitVal_digitChar (d : ℕ) (h : d < 10) : digitVal (digitChar d) = d := by
  interval_cases d <;> rfl

theorem natDigitsF_congr : ∀ f g n, n < f → n < g → natDigitsF f n = natDigitsF g n := by
  intro f
  induction f with
  | zero => intro g n h; omega
  | succ f ih =>
    intro g n hf hg
    match g, hg with
    | g + 1, hg =>
      show (if n < 10 then [digitChar n] else natDigitsF f (n / 10) ++ [digitChar (n % 10)]) =
        (if n < 10 then [digitChar n] else natDigitsF g (n / 10) ++ [digitChar (n % 10)])
      split
      · rfl
      · next h10 =>
        have hd : n / 10 < n := Nat.div_lt_self (by omega) (by omega)
        rw [ih g (n / 10) (by omega) (by omega)]

theorem natDigits_eq (n : ℕ) :
    natDigits n = if n < 10 then [digitChar n] else natDigits (n / 10) ++ [digitChar (n % 10)] := by
  show (if n < 10 then [digitChar n] else natDigitsF n (n / 10) ++ [digitChar (n % 10)]) = _
  split
  · rfl
  · next h10 =>
    have hd : n / 10 < n := Nat.div_lt_self (by omega) (by omega)
    rw [natDigitsF_congr n (n / 10 + 1) (n / 10) (by omega) (by omega)]
    rfl

theorem natDigits_all_isDig (n : ℕ) : ∀ c ∈ natDigits n, isDig c = true := by
  induction n using Nat.strong_induction_on with
  | _ n ih =>
    rw [natDigits_eq]
    split
    · intro c hc
      rw [List.mem_singleton] at hc
      subst hc
      exact isDig_digitChar n
    · next h10 =>
      intro c hc
      rw [List.mem_append] at hc
      rcases hc with hc | hc
      · exact ih (n / 10) (Nat.div_lt_self (by omega) (by omega)) c hc
      · rw [List.mem_singleton] at hc
        subst hc
        exact isDig_digitChar (n % 10)

theorem natDigits_ne_nil (n : ℕ) : natDigits n ≠ [] := by
  rw [natDigits_eq]
  split
  · simp
  · simp

theorem natDigits_foldl (n : ℕ) :
    ∀ a : ℕ, (natDigits n).foldl (fun a c => 10 * a + digitVal c) a =
      a * 10 ^ (natDigits n).length + n := by
  induction n using Nat.strong_induction_on with
  | _ n ih =>
    intro a
    rw [natDigits_eq]
    split
    · next h10 =>
      rw [List.foldl_cons, List.foldl_nil, digitVal_digitChar n h10]
      simp only [List.length_cons, List.length_nil, pow_one, zero_add]
      omega
    · next h10 =>
      rw [List.foldl_append, List.length_append]
      rw [ih (n / 10) (Nat.div_lt_self (by omega) (by omega)) a]
      rw [List.foldl_cons, List.foldl_nil, digitVal_digitChar (n % 10) (Nat.mod_lt n (by omega))]
      simp only [List.length_cons, List.length_nil, zero_add, pow_succ]
      rw [show a * (10 ^ (natDigits (n / 10)).length * 10) =
        a * 10 ^ (natDigits (n / 10)).length * 10 from by ring]
      generalize a * 10 ^ (natDigits (n / 10)).length = B
      omega

theorem foldl_replicate_zero (k : ℕ) (l : List Char) :
    (List.replicate k '0' ++ l).foldl (fun a c => 10 * a + digitVal c) 0 =
      l.foldl (fun a c => 10 * a + digitVal c) 0 := by
  induction k with
  | zero => rfl
  | succ k ih =>
    rw [List.replicate_succ, List.cons_append, List.foldl_cons]
    have : (10 * 0 + digitVal '0') = 0 := rfl
    rw [this, ih]

theorem zfill_pyStr_data (n w : ℕ) :
    (zfill (pyStr n) w).data = List.replicate (w - (natDigits n).length) '0' ++ natDigits n := by
  unfold zfill pyStr
  split
  · rfl
  · next h =>
    have : w - (natDigits n).length = 0 := by
      simp only [not_lt] at h
      omega
    rw [this, List.replicate_zero, List.nil_append]

theorem parseNatDigits_zfill_pyStr (n w : ℕ) :
    parseNatDigits (zfill (pyStr n) w).data = some n := by
  rw [zfill_pyStr_data]
  unfold parseNatDigits
  have hne : (List.replicate (w - (natDigits n).length) '0' ++ natDigits n).isEmpty = false := by
    rw [List.isEmpty_eq_false_iff_exists_mem]
    rcases List.exists_mem_of_ne_nil _ (natDigits_ne_nil n) with ⟨c, hc⟩
    exact ⟨c, List.mem_append_right _ hc⟩
  have hall : (List.replicate (w - (natDigits n).length) '0' ++ natDigits n).all isDig = true := by
    rw [List.all_append, Bool.and_eq_true]
    refine ⟨?_, ?_⟩
    · rw [List.all_eq_true]
      intro c hc
      rw [List.eq_of_mem_replicate hc]
      rfl
    · rw [List.all_eq_true]
      exact natDigits_all_isDig n
  rw [hne, hall]
  simp only [Bool.not_false, Bool.true_and, if_pos]
  rw [foldl_replicate_zero, natDigits_foldl n 0]
  simp

/-! ## Splitting on a character (models Python `str.split("-")`) -/

def splitChar (sep : Char) : List Char → List (List Char)
  | [] => [[]]
  | c :: rest =>
    if c = sep then [] :: splitChar sep rest
    else
      match splitChar sep rest with
      | [] => [[c]]
      | h :: t => (c :: h) :: t

theorem splitChar_cons (sep c : Char) (rest : List Char) :
    splitChar sep (c :: rest) =
      if c = sep then [] :: splitChar sep rest
      else
        match splitChar sep rest with
        | [] => [[c]]
        | h :: t => (c :: h) :: t := rfl

theorem splitChar_ne_nil (sep : Char) (l : List Char) : splitChar sep l ≠ [] := by
  induction l with
  | nil => simp [splitChar]
  | cons c rest ih =>
    rw [splitChar_cons]
    split
    · simp
    · split
      · simp
      · simp

theorem splitChar_not_mem (sep : Char) (l : List Char) (h : sep ∉ l) : splitChar sep l = [l] := by
  induction l with
  | nil => rfl
  | cons c rest ih =>
    rw [splitChar_cons]
    have hc : ¬c = sep := fun he => h (he ▸ List.mem_cons_self c rest)
    rw [if_neg hc]
    have hr : splitChar sep rest = [rest] := ih (fun hm => h (List.mem_cons_of_mem c hm))
    rw [hr]

theorem two_le_length_splitChar (sep : Char) (l : List Char) (h : sep ∈ l) :
    2 ≤ (splitChar sep l).length := by
  induction l with
  | nil => cases h
  | cons c rest ih =>
    rw [splitChar_cons]
    by_cases hc : c = sep
    · rw [if_pos hc]
      have hne := splitChar_ne_nil sep rest
      have h1 : 1 ≤ (splitChar sep rest).length := by
        cases he : splitChar sep rest with
        | nil => exact absurd he hne
        | cons a t => simp
      simp only [List.length_cons]
      omega
    · rw [if_neg hc]
      have hmem : sep ∈ rest := by
        cases List.mem_cons.mp h with
        | inl he => exact absurd he.symm hc
        | inr hm => exact hm
      have h2 := ih hmem
      cases he : splitChar sep rest with
      | nil => exact absurd he (splitChar_ne_nil sep rest)
      | cons a t =>
        rw [he] at h2
        simp only [List.length_cons] at h2 ⊢
        omega

theorem getLastD_splitChar_append (sep : Char) (a b : List Char) :
    (splitChar sep (a ++ sep :: b)).getLastD [] = (splitChar sep b).getLastD [] := by
  induction a with
  | nil =>
    rw [List.nil_append, splitChar_cons, if_pos rfl]
    cases he : splitChar sep b with
    | nil => exact absurd he (splitChar_ne_nil sep b)
    | cons h t => simp
  | cons c a ih =>
    rw [List.cons_append, splitChar_cons]
    by_cases hc : c = sep
    · rw [if_pos hc]
      cases he : splitChar sep (a ++ sep :: b) with
      | nil => exact absurd he (splitChar_ne_nil sep _)
      | cons h t =>
        rw [he] at ih
        simpa using ih
    · rw [if_neg hc]
      have h2 : 2 ≤ (splitChar sep (a ++ sep :: b)).length :=
        two_le_length_splitChar sep _ (by
          rw [List.mem_append]
          exact Or.inr (List.mem_cons_self sep b))
      cases he : splitChar sep (a ++ sep :: b) with
      | nil => exact absurd he (splitChar_ne_nil sep _)
      | cons h t =>
        rw [he] at ih h2
        show ((c :: h) :: t).getLastD [] = (splitChar sep b).getLastD []
        cases t with
        | nil => simp at h2
        | cons t0 ts =>
          simp only [List.getLastD_cons] at ih ⊢
          exact ih

/-! ## `clean_float` (src/app.py lines 171-176)

Python: `t = (text or "").replace("%", "").strip(); return float(t) if t else
default`, with any exception yielding `default`.  `parseFloat?` models Python's
`float(str)` on the plain decimal shapes relevant here: an optional sign, then
digits with at most one decimal point and at least one digit (exponents and
special values like `inf` are outside the model; any other character, e.g. a
comma, raises in Python and is `none` here). -/

def natValue (l : List Char) : ℕ := l.foldl (fun a c => 10 * a + digitVal c) 0

def parseUnsigned? (l : List Char) : Option ℚ :=
  match splitChar '.' l with
  | [i] => if !i.isEmpty && i.all isDig then some ((natValue i : ℚ)) else none
  | [i, f] =>
    if !(i ++ f).isEmpty && (i ++ f).all isDig then
      some ((natValue (i ++ f) : ℚ) / 10 ^ f.length)
    else none
  | _ => none

def parseFloat? (l : List Char) : Option ℚ :=
  match l with
  | '+' :: r => parseUnsigned? r
  | '-' :: r => (parseUnsigned? r).map (fun q => -q)
  | _ => parseUnsigned? l

/-- Model of Python `str.strip()`: drop whitespace from both ends. -/
def pyStrip (l : List Char) : List Char :=
  ((l.dropWhile (·.isWhitespace)).reverse.dropWhile (·.isWhitespace)).reverse

def clean_float (text : String) (default : ℚ) : ℚ :=
  let t := pyStrip (text.data.filter (fun c => c != '%'))
  if t.isEmpty then default
  else
    match parseFloat? t with
    | some v => v
    | none => default

/-! ## Data model (relational rows as Lean structures)

Only the columns the verified routines read are modelled.  `gst_mode` and
`gst_rate` are `Option`-valued because the code defends against SQL `NULL`
(`inv["gst_mode"] or 0`, `inv["gst_rate"] or 0`). -/

structure Invoice where
  id : ℕ
  user_id : ℕ
  invoice_no : String
  gst_mode : Option ℤ
  gst_rate : Option ℚ
deriving DecidableEq

structure Item where
  invoice_id : ℕ
  description : String
  qty : ℚ
  rate : ℚ
deriving DecidableEq

structure DB where
  invoices : List Invoice
  items : List Item
deriving DecidableEq

/-- The tuple returned by `calc_totals`:
`(inv, items, subtotal, gst_amount, total)`. -/
structure CalcResult where
  inv : Option Invoice
  items : List Item
  subtotal : ℚ
  gst_amount : ℚ
  total : ℚ
deriving DecidableEq

/-! ## `calc_totals` (src/app.py lines 219-243) -/

/-- The accumulation loop `for it in items: subtotal += float(it["qty"]) * float(it["rate"])`. -/
def subtotalOf (items : List Item) : ℚ :=
  items.foldl (fun acc it => acc + it.qty * it.rate) 0

/-- Model of `calc_totals(invoice_id, user_id)`.  The invoice lookup
`SELECT * FROM invoices WHERE id=? AND user_id=?` with `fetchone` is the first
row matching both keys; the items query filters on `invoice_id` alone. -/
def calc_totals (db : DB) (invoice_id user_id : ℕ) : CalcResult :=
  let inv? := db.invoices.find? (fun r => r.id == invoice_id && r.user_id == user_id)
  let items := db.items.filter (fun it => it.invoice_id == invoice_id)
  match inv? with
  | none => ⟨none, [], 0, 0, 0⟩
  | some inv =>
    let subtotal := subtotalOf items
    let gm : ℤ := inv.gst_mode.getD 0
    let gr : ℚ := inv.gst_rate.getD 0
    let gst_amount := if gm ≠ 0 then subtotal * (gr / 100) else 0
    let total := subtotal + gst_amount
    ⟨some inv, items, round2 subtotal, round2 gst_amount, round2 total⟩

/-! ## `next_invoice_no` (src/app.py lines 198-216) -/

/-- The query `SELECT invoice_no FROM invoices WHERE user_id=? AND invoice_no
LIKE ? ORDER BY id DESC LIMIT 1` for the pattern `pre + "%"`: among rows of the
user whose number starts with `pre`, the one of maximal `id` (ids are unique in
SQLite, being the primary key).  SQLite `LIKE` is ASCII-case-insensitive; the
model is case-sensitive, which agrees on the uppercase numbers this program
generates. -/
def selRow (db : DB) (user_id : ℕ) (pre : String) : Option Invoice :=
  (db.invoices.filter
    (fun r => r.user_id == user_id && pre.data.isPrefixOf r.invoice_no.data)).argmax
    (fun r => r.id)

/-- Python `no.split("-")[-1]`. -/
def lastSegment (s : String) : String := ⟨(splitChar '-' s.data).getLastD []⟩

/-- Lines 211-216: parse the trailing segment, increment (falling back to the
literal `1` when `int(last)` raises), and zero-pad to 3 digits. -/
def bumpSuffix (pre no : String) : String :=
  let n : ℕ :=
    match parseNatDigits (lastSegment no).data with
    | some k => k + 1
    | none => 1
  pre ++ zfill (pyStr n) 3

/-- Lines 208-216 given the fetched row (`none` when the query returned no
row): `if not row or not row["invoice_no"]: return prefix + "001"`, else bump
the trailing segment. -/
def nextFromRow (pre : String) (row? : Option String) : String :=
  match row? with
  | none => pre ++ "001"
  | some no => if no = "" then pre ++ "001" else bumpSuffix pre no

/-- Model of `next_invoice_no(user_id)`; `today` is the `%Y%m%d`-formatted
current date, passed explicitly. -/
def next_invoice_no (db : DB) (user_id : ℕ) (today : String) : String :=
  let pre := "HK-" ++ today ++ "-"
  nextFromRow pre ((selRow db user_id pre).map (fun r => r.invoice_no))

/-- The number assigned to the (N+1)-st sequential invoice of one user on one
day: each generated number becomes the most recent matching row seen by the
next call. -/
def seqNo (today : String) : ℕ → String
  | 0 => nextFromRow ("HK-" ++ today ++ "-") none
  | k + 1 => nextFromRow ("HK-" ++ today ++ "-") (some (seqNo today k))

/-! ## Document layout engine (src/app.py lines 569-654)

The canvas is modelled by the vertical cursor `y`, the number of committed
pages (`showPage` calls), and the list of `drawString(x, y, text)` calls made
so far.  Font selection (`setFont`) has no effect on this state and is not
modelled. -/

/-- Height of an ISO A4 page in points, as in reportlab's `A4` page size:
297 mm at 72/25.4 points per millimetre. -/
def height : ℚ := 297 * 72 * 10 / 254

/-- The fixed horizontal margin `x = 40`. -/
def xMargin : ℚ := 40

structure PdfState where
  y : ℚ
  pages : ℕ
  drawn : List (ℚ × ℚ × String)
deriving DecidableEq

/-- Python string slicing `s[:n]`: the first `n` characters. -/
def pySlice (s : String) (n : ℕ) : String := ⟨s.data.take n⟩

/-- The closure `line(txt, size, gap)` at lines 576-583: commit the page and
reset the cursor when it has fallen below the bottom margin, draw the text
truncated to 120 characters, then advance the cursor down by `gap`. -/
def line (st : PdfState) (txt : String) (gap : ℚ) : PdfState :=
  let st1 := if st.y < 60 then { st with pages := st.pages + 1, y := height - 50 } else st
  { st1 with drawn := st1.drawn ++ [(xMargin, st1.y, pySlice txt 120)], y := st1.y - gap }

/-! ## Item-row rendering (src/app.py lines 636-654) -/

/-- Python `f"{s:>w}"`: left-pad with spaces to width `w` (no truncation). -/
def padLeft (s : String) (w : ℕ) : String := ⟨List.replicate (w - s.data.length) ' ' ++ s.data⟩

/-- Python `f"{s:<w}"`: right-pad with spaces to width `w` (no truncation). -/
def padRight (s : String) (w : ℕ) : String := ⟨s.data ++ List.replicate (w - s.data.length) ' '⟩

def fmtCents (m : ℕ) : String := pyStr (m / 100) ++ "." ++ zfill (pyStr (m % 100)) 2

/-- Python `f"{q:.2f}"`: fixed-point rendering with 2 fractional digits, the
value rounded to the nearest hundredth with ties to even (the model does not
distinguish IEEE negative zero, which Python would print as `-0.00`). -/
def fmtFixed2 (q : ℚ) : String :=
  let n := pyRoundInt (q * 100)
  if n < 0 then "-" ++ fmtCents n.natAbs else fmtCents n.natAbs

/-- The wrap loop `while len(desc) > 35: desc_lines.append(desc[:35]); desc =
desc[35:]` followed by `desc_lines.append(desc)`, with explicit fuel so that
the function is structurally recursive; `chunks35` supplies enough fuel. -/
def chunks35F : ℕ → List Char → List (List Char)
  | 0, l => [l]
  | f + 1, l => if 35 < l.length then l.take 35 :: chunks35F f (l.drop 35) else [l]

def chunks35 (l : List Char) : List (List Char) := chunks35F l.length l

/-- The text lines emitted for one item row (lines 636-654): the first carries
the first description chunk plus the qty/rate/amount columns, each remaining
chunk is emitted bare on a continuation line. -/
def itemLines (it : Item) : List String :=
  let amt := it.qty * it.rate
  match chunks35 it.description.data with
  | [] => []
  | dl :: rest =>
    (padRight ⟨dl⟩ 35 ++ "  " ++ padLeft (fmtFixed2 it.qty) 5 ++ "  " ++
        padLeft (fmtFixed2 it.rate) 8 ++ "  " ++ padLeft (fmtFixed2 amt) 9) ::
      rest.map (fun l => (⟨l⟩ : String))

theorem chunks35F_congr :
    ∀ f g (l : List Char), l.length ≤ 35 * f + 35 → l.length ≤ 35 * g + 35 →
      chunks35F f l = chunks35F g l := by
  intro f
  induction f with
  | zero =>
    intro g l hf hg
    match g with
    | 0 => rfl
    | g + 1 =>
      show [l] = if 35 < l.length then _ else [l]
      rw [if_neg (by omega)]
  | succ f ih =>
    intro g l hf hg
    match g with
    | 0 =>
      show (if 35 < l.length then _ else [l]) = [l]
      rw [if_neg (by omega)]
    | g + 1 =>
      show (if 35 < l.length then l.take 35 :: chunks35F f (l.drop 35) else [l]) =
        (if 35 < l.length then l.take 35 :: chunks35F g (l.drop 35) else [l])
      split
      · next h =>
        congr 1
        apply ih
        · rw [List.length_drop]; omega
        · rw [List.length_drop]; omega
      · rfl

theorem chunks35_eq (l : List Char) :
    chunks35 l = if 35 < l.length then l.take 35 :: chunks35 (l.drop 35) else [l] := by
  show chunks35F l.length l = _
  by_cases h : 35 < l.length
  · rw [if_pos h]
    obtain ⟨k, hk⟩ : ∃ k, l.length = k + 1 := ⟨l.length - 1, by omega⟩
    rw [hk]
    show (if 35 < l.length then l.take 35 :: chunks35F k (l.drop 35) else [l]) = _
    rw [if_pos h]
    congr 1
    apply chunks35F_congr
    · rw [List.length_drop]; omega
    · rw [List.length_drop]
      have : (l.drop 35).length = l.length - 35 := List.length_drop 35 l
      omega
  · rw [if_neg h]
    cases hk : l.length with
    | zero => rfl
    | succ k =>
      show (if 35 < l.length then l.take 35 :: chunks35F k (l.drop 35) else [l]) = [l]
      rw [if_neg h]

theorem chunks35_ne_nil (l : List Char) : chunks35 l ≠ [] := by
  rw [chunks35_eq]
  split <;> simp

theorem chunks35_flatten (l : List Char) : (chunks35 l).flatten = l := by
  suffices H : ∀ n (l : List Char), l.length ≤ n → (chunks35 l).flatten = l from
    H l.length l le_rfl
  intro n
  induction n using Nat.strong_induction_on with
  | _ n ih =>
    intro l hn
    rw [chunks35_eq]
    split
    · next h =>
      rw [List.flatten_cons]
      rw [ih (n - 1) (by omega) (l.drop 35) (by rw [List.length_drop]; omega)]
      exact List.take_append_drop 35 l
    · simp

theorem chunks35_dropLast_length (l : List Char) :
    ∀ c ∈ (chunks35 l).dropLast, c.length = 35 := by
  suffices H : ∀ n (l : List Char), l.length ≤ n →
      ∀ c ∈ (chunks35 l).dropLast, c.length = 35 from H l.length l le_rfl
  intro n
  induction n using Nat.strong_induction_on with
  | _ n ih =>
    intro l hn
    rw [chunks35_eq]
    split
    · next h =>
      cases he : chunks35 (l.drop 35) with
      | nil => exact absurd he (chunks35_ne_nil _)
      | cons r rs =>
        intro c hc
        rw [show (l.take 35 :: r :: rs).dropLast = l.take 35 :: (r :: rs).dropLast from rfl] at hc
        cases List.mem_cons.mp hc with
        | inl hce =>
          subst hce
          rw [List.length_take]
          omega
        | inr hcm =>
          have hrec := ih (n - 1) (by omega) (l.drop 35) (by rw [List.length_drop]; omega)
          rw [he] at hrec
          exact hrec c hcm
    · intro c hc
      simp at hc
/-! ## Helper lemmas -/

theorem calc_totals_not_found (db : DB) (iid uid : ℕ)
    (h : db.invoices.find? (fun r => r.id == iid && r.user_id == uid) = none) :
    calc_totals db iid uid = ⟨none, [], 0, 0, 0⟩ := by
  simp only [calc_totals, h]

theorem calc_totals_found (db : DB) (iid uid : ℕ) (inv : Invoice)
    (h : db.invoices.find? (fun r => r.id == iid && r.user_id == uid) = some inv) :
    calc_totals db iid uid =
      ⟨some inv, db.items.filter (fun it => it.invoice_id == iid),
        round2 (subtotalOf (db.items.filter (fun it => it.invoice_id == iid))),
        round2 (if inv.gst_mode.getD 0 ≠ 0 then
            subtotalOf (db.items.filter (fun it => it.invoice_id == iid)) *
              (inv.gst_rate.getD 0 / 100)
          else 0),
        round2 (subtotalOf (db.items.filter (fun it => it.invoice_id == iid)) +
          (if inv.gst_mode.getD 0 ≠ 0 then
            subtotalOf (db.items.filter (fun it => it.invoice_id == iid)) *
              (inv.gst_rate.getD 0 / 100)
          else 0))⟩ := by
  simp only [calc_totals, h]

theorem subtotalOf_eq_sum (l : List Item) :
    subtotalOf l = (l.map (fun it => it.qty * it.rate)).sum := by
  rw [List.sum_eq_foldl, List.foldl_map]
  rfl

theorem round2_mul_hundred (q : ℚ) : round2 q * 100 = (pyRoundInt (q * 100) : ℚ) := by
  unfold round2
  field_simp

theorem fmtFixed2_round2 (q : ℚ) : fmtFixed2 (round2 q) = fmtFixed2 q := by
  unfold fmtFixed2
  rw [round2_mul_hundred, pyRoundInt_intCast]

theorem isDig_of_mem_zfill_pyStr (n w : ℕ) (c : Char) (hc : c ∈ (zfill (pyStr n) w).data) :
    isDig c = true := by
  rw [zfill_pyStr_data] at hc
  rcases List.mem_append.mp hc with hc | hc
  · rw [List.eq_of_mem_replicate hc]
    rfl
  · exact natDigits_all_isDig n c hc

theorem dash_not_mem_zfill_pyStr (n w : ℕ) : '-' ∉ (zfill (pyStr n) w).data := by
  intro hc
  have := isDig_of_mem_zfill_pyStr n w '-' hc
  simp [isDig] at this

theorem bumpSuffix_seq (t : String) (N : ℕ) :
    bumpSuffix ("HK-" ++ t ++ "-") (("HK-" ++ t ++ "-") ++ zfill (pyStr N) 3) =
      ("HK-" ++ t ++ "-") ++ zfill (pyStr (N + 1)) 3 := by
  have hdata : (("HK-" ++ t ++ "-") ++ zfill (pyStr N) 3).data =
      ("HK-" ++ t).data ++ '-' :: (zfill (pyStr N) 3).data := by
    rw [String.data_append, String.data_append]
    rw [List.append_assoc]
    rfl
  have hlast : (lastSegment (("HK-" ++ t ++ "-") ++ zfill (pyStr N) 3)).data =
      (zfill (pyStr N) 3).data := by
    show ((splitChar '-' (("HK-" ++ t ++ "-") ++ zfill (pyStr N) 3).data).getLastD []) = _
    rw [hdata, getLastD_splitChar_append,
      splitChar_not_mem '-' _ (dash_not_mem_zfill_pyStr N 3)]
    rfl
  unfold bumpSuffix
  rw [hlast, parseNatDigits_zfill_pyStr]

theorem ne_empty_of_hk (t z : String) : ("HK-" ++ t ++ "-") ++ z ≠ "" := by
  intro h
  have := congrArg String.data h
  rw [String.data_append, String.data_append, String.data_append] at this
  simp at this

/-! ## Claims -/

/-! ### C1: rounding structure of `calc_totals` (corrected)

The claim asserts a chained-rounding invariant: that `tax_amount` is computed
from the already-rounded subtotal and `total` from the two already-rounded
values.  The code instead keeps the raw (unrounded) running values and rounds
each of the three outputs exactly once, from the raw values
(src/app.py lines 234-243). -/

def invC1 : Invoice := ⟨1, 1, "HK-20260101-001", some 1, some 1000⟩

def itC1 : Item := ⟨1, "Widget", 1, 12/1000⟩

def dbC1 : DB := ⟨[invC1], [itC1]⟩

/-- C1 counterexample: with one item of amount 0.012 and tax rate 1000, the
returned tax amount is `round2(0.012 × 10) = 0.12`, while rounding the
already-rounded returned subtotal (`0.01`) would give `round2(0.01 × 10) =
0.10`: the chained-rounding form of the claim is false on this invoice. -/
theorem c1_counterexample :
    (calc_totals dbC1 1 1).gst_amount = 12/100 ∧
    round2 ((calc_totals dbC1 1 1).subtotal * ((1000 : ℚ) / 100)) = 10/100 ∧
    (12 : ℚ)/100 ≠ 10/100 := by
  refine ⟨?_, ?_, by norm_num⟩
  · simp only [calc_totals, dbC1]
    norm_num [invC1, itC1, subtotalOf, round2, pyRoundInt]
  · simp only [calc_totals, dbC1]
    norm_num [invC1, itC1, subtotalOf, round2, pyRoundInt]

/-- C1 (amended): for every invoice with tax mode on, `calc_totals` returns
subtotal `round2(Σ qty×rate)`, tax `round2(raw_subtotal × tax_rate / 100)`
computed from the *unrounded* subtotal, and total
`round2(raw_subtotal + raw_tax)` of the *unrounded* values — each derived
value is rounded exactly once, from the raw running values. -/
theorem c1_theorem (db : DB) (iid uid : ℕ) (inv : Invoice)
    (hfind : db.invoices.find? (fun r => r.id == iid && r.user_id == uid) = some inv)
    (hmode : inv.gst_mode.getD 0 ≠ 0) :
    calc_totals db iid uid =
      ⟨some inv, db.items.filter (fun it => it.invoice_id == iid),
        round2 (((db.items.filter (fun it => it.invoice_id == iid)).map
          (fun it => it.qty * it.rate)).sum),
        round2 ((((db.items.filter (fun it => it.invoice_id == iid)).map
            (fun it => it.qty * it.rate)).sum) * (inv.gst_rate.getD 0 / 100)),
        round2 ((((db.items.filter (fun it => it.invoice_id == iid)).map
            (fun it => it.qty * it.rate)).sum) +
          (((db.items.filter (fun it => it.invoice_id == iid)).map
            (fun it => it.qty * it.rate)).sum) * (inv.gst_rate.getD 0 / 100))⟩ := by
  rw [calc_totals_found db iid uid inv hfind]
  rw [if_pos hmode, subtotalOf_eq_sum]

/-- C1 witness: the amended theorem applied to the concrete one-item invoice. -/
theorem c1_witness :
    calc_totals dbC1 1 1 =
      ⟨some invC1, dbC1.items.filter (fun it => it.invoice_id == 1),
        round2 (((dbC1.items.filter (fun it => it.invoice_id == 1)).map
          (fun it => it.qty * it.rate)).sum),
        round2 ((((dbC1.items.filter (fun it => it.invoice_id == 1)).map
            (fun it => it.qty * it.rate)).sum) * (invC1.gst_rate.getD 0 / 100)),
        round2 ((((dbC1.items.filter (fun it => it.invoice_id == 1)).map
            (fun it => it.qty * it.rate)).sum) +
          (((dbC1.items.filter (fun it => it.invoice_id == 1)).map
            (fun it => it.qty * it.rate)).sum) * (invC1.gst_rate.getD 0 / 100))⟩ :=
  c1_theorem dbC1 1 1 invC1 (by rfl) (by decide)

/-! ### C2: per-user isolation of `calc_totals` (confirmed) -/

/-- C2: whenever no invoice row matches both the id and the user — in
particular when the id exists but belongs to a different user — `calc_totals`
returns the not-found signal `(None, [], 0.0, 0.0, 0.0)`; no data of the other
user's invoice appears in the result. -/
theorem c2_theorem (db : DB) (iid uid : ℕ)
    (h : ∀ inv ∈ db.invoices, ¬(inv.id = iid ∧ inv.user_id = uid)) :
    calc_totals db iid uid = ⟨none, [], 0, 0, 0⟩ := by
  apply calc_totals_not_found
  rw [List.find?_eq_none]
  intro x hx
  simp only [Bool.and_eq_true, beq_iff_eq, not_and]
  exact fun h1 h2 => h x hx ⟨h1, h2⟩

def dbC2 : DB := ⟨[⟨1, 2, "HK-20260101-001", some 1, some 18⟩], [⟨1, "Widget", 1, 5⟩]⟩

/-- C2 witness: invoice id 1 exists but belongs to user 2; user 1 looking it
up gets the not-found signal. -/
theorem c2_witness : calc_totals dbC2 1 1 = ⟨none, [], 0, 0, 0⟩ :=
  c2_theorem dbC2 1 1 (by decide)

/-! ### C5: the 2-decimal rounding is half-even, not half-up (corrected)

Python's `round(x, 2)` rounds ties to the even last digit.  At the exact
midpoint 0.125 (representable exactly in binary, so the float model agrees)
the result is 0.12 — the neighbour *nearer* zero — refuting round-half-up. -/

def invC5 : Invoice := ⟨1, 1, "HK-20260101-001", some 0, some 18⟩

def itC5 : Item := ⟨1, "Widget", 1, 1/8⟩

def dbC5 : DB := ⟨[invC5], [itC5]⟩

/-- C5 counterexample: an invoice with a single item of amount exactly 0.125
gets subtotal 0.12 from `calc_totals`, not the further-from-zero neighbour
0.13 required by round-half-up. -/
theorem c5_counterexample :
    (calc_totals dbC5 1 1).subtotal = 12/100 ∧ (12 : ℚ)/100 ≠ 13/100 := by
  refine ⟨?_, by norm_num⟩
  simp only [calc_totals, dbC5]
  norm_num [invC5, itC5, subtotalOf, round2, pyRoundInt]

/-- C5 (amended): the 2-decimal rounding step used for every derived currency
value rounds ties to even: a value exactly midway between the consecutive
hundredths `n/100` and `(n+1)/100` rounds to whichever of the two has an even
count of hundredths (so 0.125 → 0.12 and 0.135 → 0.14). -/
theorem c5_theorem (n : ℤ) :
    round2 (((2 * n + 1 : ℤ) : ℚ) / 200) =
      ((if n % 2 = 0 then n else n + 1 : ℤ) : ℚ) / 100 := by
  unfold round2 pyRoundInt
  have h1 : (((2 * n + 1 : ℤ) : ℚ) / 200) * 100 = (n : ℚ) + 1/2 := by
    push_cast
    ring
  rw [h1]
  have h2 : ⌊(n : ℚ) + 1/2⌋ = n := by
    rw [Int.floor_int_add]
    norm_num
  rw [h2]
  have h3 : (n : ℚ) + 1/2 - n = 1/2 := by ring
  rw [h3]
  rw [if_neg (by norm_num), if_neg (by norm_num)]

/-! ### C6: tax is exactly 0 when tax mode is off (confirmed) -/

/-- C6: for every invoice whose tax-mode flag is false (stored 0 or NULL) and
every item list and stored tax rate, the tax amount returned by `calc_totals`
is exactly 0. -/
theorem c6_theorem (db : DB) (iid uid : ℕ) (inv : Invoice)
    (hfind : (calc_totals db iid uid).inv = some inv)
    (hmode : inv.gst_mode.getD 0 = 0) :
    (calc_totals db iid uid).gst_amount = 0 := by
  cases hf : db.invoices.find? (fun r => r.id == iid && r.user_id == uid) with
  | none =>
    rw [calc_totals_not_found db iid uid hf]
  | some inv' =>
    rw [calc_totals_found db iid uid inv' hf] at hfind ⊢
    have hinv : inv' = inv := by
      simpa using hfind
    subst hinv
    show round2 (if inv'.gst_mode.getD 0 ≠ 0 then _ else 0) = 0
    rw [if_neg (by rw [hmode]; exact fun hc => hc rfl)]
    exact round2_zero

def invC6 : Invoice := ⟨1, 1, "HK-20260101-001", some 0, some 18⟩

def dbC6 : DB := ⟨[invC6], [⟨1, "Design", 2, 500⟩, ⟨1, "Hosting", 1, 1200⟩]⟩

/-- C6 witness: tax mode off with a stored rate of 18 still yields tax 0. -/
theorem c6_witness : (calc_totals dbC6 1 1).gst_amount = 0 :=
  c6_theorem dbC6 1 1 invC6 (by rfl) (by decide)

/-! ### C4: `clean_float` parsing (corrected)

The claim says `clean_float` strips "a trailing percent sign and thousands
separators".  The code (src/app.py lines 171-176) removes *all* percent signs
via `replace("%", "")` and does nothing at all about thousands separators: a
comma makes `float()` raise, so the caller default is returned.  The
parse-failure fallback and the `clean_float("abc", 0.0) = 0.0` example are
as claimed. -/

/-- C4 counterexample: the input `"1,200"` — `1200` written with a thousands
separator — is *not* parsed to `1200.0`; the comma survives the percent-strip
and makes the parse fail, so the caller default `0.0` is returned. -/
theorem c4_counterexample : clean_float "1,200" 0 = 0 ∧ (0 : ℚ) ≠ 1200 := by
  refine ⟨by decide, by norm_num⟩

/-- C4 (amended): `clean_float` removes every percent sign, trims surrounding
whitespace, and parses the remainder as a decimal number; on parse failure —
including inputs containing a thousands separator, which is not removed — or
on an empty remainder it returns the caller-supplied default; in particular
`clean_float("abc", 0.0) = 0.0` rather than raising an error. -/
theorem c4_theorem :
    (∀ (s : String) (d : ℚ),
        parseFloat? (pyStrip (s.data.filter (fun c => c != '%'))) = none →
        clean_float s d = d) ∧
    (∀ (s : String) (d v : ℚ),
        pyStrip (s.data.filter (fun c => c != '%')) ≠ [] →
        parseFloat? (pyStrip (s.data.filter (fun c => c != '%'))) = some v →
        clean_float s d = v) ∧
    clean_float "abc" 0 = 0 := by
  refine ⟨?_, ?_, by decide⟩
  · intro s d hparse
    simp only [clean_float]
    split
    · rfl
    · rw [hparse]
  · intro s d v hne hparse
    simp only [clean_float]
    split
    · next hemp =>
      rw [List.isEmpty_iff] at hemp
      exact absurd hemp hne
    · rw [hparse]

/-- C4 witness: `"usd"` fails to parse, so the default 5 is returned. -/
theorem c4_witness : clean_float "usd" 5 = 5 :=
  c4_theorem.1 "usd" 5 (by decide)

/-! ### C7: subtotal is the rounded sum, independent of item order (confirmed) -/

/-- C7: for every pair of databases equal on invoices whose item rows for the
looked-up invoice are permutations of one another (all qty, rate ≥ 0), the
subtotal returned by `calc_totals` is the same, and equals the 2-decimal
rounding of the sum of qty×rate over the returned items. -/
theorem c7_theorem (db db' : DB) (iid uid : ℕ)
    (hinv : db.invoices = db'.invoices)
    (hperm : (db.items.filter (fun it => it.invoice_id == iid)).Perm
      (db'.items.filter (fun it => it.invoice_id == iid)))
    (_hpos : ∀ it ∈ db.items, 0 ≤ it.qty ∧ 0 ≤ it.rate) :
    (calc_totals db iid uid).subtotal = (calc_totals db' iid uid).subtotal ∧
    (calc_totals db iid uid).subtotal =
      round2 (((calc_totals db iid uid).items.map (fun it => it.qty * it.rate)).sum) := by
  have hsum : subtotalOf (db.items.filter (fun it => it.invoice_id == iid)) =
      subtotalOf (db'.items.filter (fun it => it.invoice_id == iid)) := by
    rw [subtotalOf_eq_sum, subtotalOf_eq_sum]
    exact (hperm.map (fun it => it.qty * it.rate)).sum_eq
  cases hf : db.invoices.find? (fun r => r.id == iid && r.user_id == uid) with
  | none =>
    rw [calc_totals_not_found db iid uid hf,
      calc_totals_not_found db' iid uid (by rw [← hinv]; exact hf)]
    refine ⟨rfl, ?_⟩
    show (0 : ℚ) = round2 (([] : List Item).map (fun it => it.qty * it.rate)).sum
    rw [List.map_nil, List.sum_nil, round2_zero]
  | some inv =>
    rw [calc_totals_found db iid uid inv hf,
      calc_totals_found db' iid uid inv (by rw [← hinv]; exact hf)]
    refine ⟨?_, ?_⟩
    · show round2 _ = round2 _
      rw [hsum]
    · show round2 (subtotalOf _) = round2 _
      rw [subtotalOf_eq_sum]

def dbC7a : DB := ⟨[⟨1, 1, "HK-20260101-001", some 1, some 18⟩],
  [⟨1, "Design", 2, 500⟩, ⟨1, "Hosting", 1, 1200⟩]⟩

def dbC7b : DB := ⟨[⟨1, 1, "HK-20260101-001", some 1, some 18⟩],
  [⟨1, "Hosting", 1, 1200⟩, ⟨1, "Design", 2, 500⟩]⟩

/-- C7 witness: the two-item list in either insertion order gives the same
subtotal, equal to the rounded sum. -/
theorem c7_witness :
    (calc_totals dbC7a 1 1).subtotal = (calc_totals dbC7b 1 1).subtotal ∧
    (calc_totals dbC7a 1 1).subtotal =
      round2 (((calc_totals dbC7a 1 1).items.map (fun it => it.qty * it.rate)).sum) :=
  c7_theorem dbC7a dbC7b 1 1 (by rfl) (by decide) (by decide)

/-! ### C8: the line-emitting operation and its page-break invariant (confirmed) -/

/-- C8: for every call of `line`: if the cursor has fallen below the bottom
margin (`y < 60`) the page is committed and the cursor resets to the top margin
(`height - 50`) before anything is written; the text, truncated to the maximum
character width, is drawn at the fixed horizontal margin; the cursor decreases
by exactly the given line height from the drawing position — and the drawn
vertical position is always at or above the bottom margin. -/
theorem c8_theorem (st : PdfState) (txt : String) (gap : ℚ) :
    (st.y < 60 → (line st txt gap).pages = st.pages + 1) ∧
    (¬st.y < 60 → (line st txt gap).pages = st.pages) ∧
    (line st txt gap).drawn =
      st.drawn ++ [(xMargin, if st.y < 60 then height - 50 else st.y, pySlice txt 120)] ∧
    (line st txt gap).y = (if st.y < 60 then height - 50 else st.y) - gap ∧
    60 ≤ (if st.y < 60 then height - 50 else st.y) := by
  by_cases h : st.y < 60
  · refine ⟨fun _ => ?_, fun hc => absurd h hc, ?_, ?_, ?_⟩
    · simp [line, if_pos h]
    · simp [line, if_pos h]
    · simp [line, if_pos h]
    · rw [if_pos h]
      norm_num [height]
  · refine ⟨fun hc => absurd hc h, fun _ => ?_, ?_, ?_, ?_⟩
    · simp [line, if_neg h]
    · simp [line, if_neg h]
    · simp [line, if_neg h]
    · rw [if_neg h]
      exact not_lt.mp h

/-- C8 witness: a call with the cursor at 50 (below the margin) commits a page
and draws at the reset position. -/
theorem c8_witness :
    (line ⟨50, 0, []⟩ "Subtotal: 2200.00" 16).pages = 0 + 1 :=
  (c8_theorem ⟨50, 0, []⟩ "Subtotal: 2200.00" 16).1 (by norm_num)

/-! ### C9: item-description wrapping (confirmed) -/

theorem chunks35_getLastD_length (l : List Char) :
    ((chunks35 l).getLastD []).length ≤ 35 := by
  suffices H : ∀ n (l : List Char), l.length ≤ n →
      ((chunks35 l).getLastD []).length ≤ 35 from H l.length l le_rfl
  intro n
  induction n using Nat.strong_induction_on with
  | _ n ih =>
    intro l hn
    rw [chunks35_eq]
    split
    · next h =>
      cases he : chunks35 (l.drop 35) with
      | nil => exact absurd he (chunks35_ne_nil _)
      | cons r rs =>
        have hrec := ih (n - 1) (by omega) (l.drop 35) (by rw [List.length_drop]; omega)
        rw [he] at hrec
        rw [List.getLastD_cons]
        cases rs with
        | nil => simpa using hrec
        | cons r0 rs' =>
          rw [List.getLastD_cons] at hrec ⊢
          exact hrec
    · next h =>
      simp only [List.getLastD_cons, List.getLastD_nil]
      omega

/-- C9: for every item, the description is hard-wrapped by slicing into
consecutive 35-character chunks (whose concatenation restores the description;
every chunk but the last is exactly 35 characters, the last at most 35); one
text line is emitted per chunk, the quantity/rate/amount columns appearing only
on the first, with the amount column showing qty×rate at 2 decimals (formatting
qty×rate is the same as formatting its 2-decimal rounding); descriptions of at
most 35 characters yield exactly one line, longer ones at least two. -/
theorem c9_theorem (it : Item) :
    (chunks35 it.description.data).flatten = it.description.data ∧
    (∀ c ∈ (chunks35 it.description.data).dropLast, c.length = 35) ∧
    ((chunks35 it.description.data).getLastD []).length ≤ 35 ∧
    (itemLines it).length = (chunks35 it.description.data).length ∧
    (itemLines it).head? = some (padRight ⟨(chunks35 it.description.data).headD []⟩ 35 ++
      "  " ++ padLeft (fmtFixed2 it.qty) 5 ++ "  " ++ padLeft (fmtFixed2 it.rate) 8 ++
      "  " ++ padLeft (fmtFixed2 (it.qty * it.rate)) 9) ∧
    (itemLines it).tail =
      ((chunks35 it.description.data).tail).map (fun l => (⟨l⟩ : String)) ∧
    fmtFixed2 (it.qty * it.rate) = fmtFixed2 (round2 (it.qty * it.rate)) ∧
    (it.description.data.length ≤ 35 → (itemLines it).length = 1) ∧
    (35 < it.description.data.length → 2 ≤ (itemLines it).length) := by
  cases he : chunks35 it.description.data with
  | nil => exact absurd he (chunks35_ne_nil _)
  | cons dl rest =>
    have hlines : itemLines it =
        (padRight ⟨dl⟩ 35 ++ "  " ++ padLeft (fmtFixed2 it.qty) 5 ++ "  " ++
          padLeft (fmtFixed2 it.rate) 8 ++ "  " ++
          padLeft (fmtFixed2 (it.qty * it.rate)) 9) ::
          rest.map (fun l => (⟨l⟩ : String)) := by
      simp only [itemLines, he]
    refine ⟨?_, ?_, ?_, ?_, ?_, ?_, (fmtFixed2_round2 (it.qty * it.rate)).symm, ?_, ?_⟩
    · exact he ▸ chunks35_flatten it.description.data
    · exact he ▸ chunks35_dropLast_length it.description.data
    · exact he ▸ chunks35_getLastD_length it.description.data
    · rw [hlines]
      simp
    · rw [hlines]
      rfl
    · rw [hlines]
      rfl
    · intro hle
      rw [hlines]
      have h1 : chunks35 it.description.data = [it.description.data] := by
        rw [chunks35_eq, if_neg (by omega)]
      rw [h1] at he
      cases he
      simp
    · intro hgt
      rw [hlines]
      have h2 : chunks35 it.description.data =
          it.description.data.take 35 :: chunks35 (it.description.data.drop 35) := by
        rw [chunks35_eq, if_pos hgt]
      rw [h2] at he
      cases he
      cases hd : chunks35 (it.description.data.drop 35) with
      | nil => exact absurd hd (chunks35_ne_nil _)
      | cons r rs =>
        simp

def itC9 : Item := ⟨1, "A description that is clearly longer than thirty-five characters", 2, 500⟩

/-- C9 witness: a 64-character description yields at least two text lines. -/
theorem c9_witness : 2 ≤ (itemLines itC9).length :=
  (c9_theorem itC9).2.2.2.2.2.2.2.2 (by decide)

/-! ### C10: every drawn text line is truncated to 120 characters (confirmed) -/

/-- C10: every string passed to `line` is drawn as exactly its first 120
characters (at the fixed horizontal margin, at some vertical position),
regardless of the string's length: the drawn text's length is
`min 120 (length txt)`, hence at most 120. -/
theorem c10_theorem (st : PdfState) (txt : String) (gap : ℚ) :
    ∃ yd, (line st txt gap).drawn = st.drawn ++ [(xMargin, yd, pySlice txt 120)] ∧
      (pySlice txt 120).data = txt.data.take 120 ∧
      (pySlice txt 120).data.length = min 120 txt.data.length ∧
      (pySlice txt 120).data.length ≤ 120 := by
  refine ⟨if st.y < 60 then height - 50 else st.y, ?_, rfl, List.length_take 120 txt.data, ?_⟩
  · by_cases h : st.y < 60
    · simp [line, if_pos h]
    · simp [line, if_neg h]
  · show (List.take 120 txt.data).length ≤ 120
    rw [List.length_take]
    omega

/-! ### C3: invoice number allocation (confirmed) -/

/-- C3: `next_invoice_no` returns `HK-YYYYMMDD-001` when the user has no
invoice with that day's prefix; otherwise the query selects the matching row
of highest id, and the function increments the trailing dash-separated segment
of its number, zero-padded to 3 digits, falling back to suffix `001` when that
segment does not parse as an integer; consequently the Nth sequential
invoice number of one user and day carries suffix `str(N).zfill(3)`. -/
theorem c3_theorem (db : DB) (uid : ℕ) (today : String) :
    (selRow db uid ("HK-" ++ today ++ "-") = none →
      next_invoice_no db uid today = ("HK-" ++ today ++ "-") ++ "001") ∧
    (∀ r ∈ db.invoices, r.user_id = uid →
      ("HK-" ++ today ++ "-").data.isPrefixOf r.invoice_no.data = true →
      ∃ m, selRow db uid ("HK-" ++ today ++ "-") = some m ∧
        ∀ r' ∈ db.invoices, r'.user_id = uid →
          ("HK-" ++ today ++ "-").data.isPrefixOf r'.invoice_no.data = true →
          r'.id ≤ m.id) ∧
    (∀ r k, selRow db uid ("HK-" ++ today ++ "-") = some r →
      parseNatDigits (lastSegment r.invoice_no).data = some k →
      next_invoice_no db uid today = ("HK-" ++ today ++ "-") ++ zfill (pyStr (k + 1)) 3) ∧
    (∀ r, selRow db uid ("HK-" ++ today ++ "-") = some r →
      parseNatDigits (lastSegment r.invoice_no).data = none →
      next_invoice_no db uid today = ("HK-" ++ today ++ "-") ++ "001") ∧
    (∀ N : ℕ, seqNo today N = ("HK-" ++ today ++ "-") ++ zfill (pyStr (N + 1)) 3) := by
  refine ⟨?_, ?_, ?_, ?_, ?_⟩
  · intro hsel
    simp only [next_invoice_no, hsel, Option.map_none']
    rfl
  · intro r hr hruid hrpre
    have hm : r ∈ db.invoices.filter
        (fun r => r.user_id == uid &&
          ("HK-" ++ today ++ "-").data.isPrefixOf r.invoice_no.data) := by
      refine List.mem_filter.mpr ⟨hr, ?_⟩
      rw [Bool.and_eq_true, beq_iff_eq]
      exact ⟨hruid, hrpre⟩
    cases harg : (db.invoices.filter
        (fun r => r.user_id == uid &&
          ("HK-" ++ today ++ "-").data.isPrefixOf r.invoice_no.data)).argmax
        (fun r => r.id) with
    | none =>
      rw [List.argmax_eq_none] at harg
      rw [harg] at hm
      cases hm
    | some m =>
      refine ⟨m, harg, ?_⟩
      intro r' hr' hr'uid hr'pre
      have hm' : r' ∈ db.invoices.filter
          (fun r => r.user_id == uid &&
            ("HK-" ++ today ++ "-").data.isPrefixOf r.invoice_no.data) := by
        refine List.mem_filter.mpr ⟨hr', ?_⟩
        rw [Bool.and_eq_true, beq_iff_eq]
        exact ⟨hr'uid, hr'pre⟩
      exact List.le_of_mem_argmax hm' (Option.mem_def.mpr harg)
  · intro r k hsel hparse
    simp only [next_invoice_no, hsel, Option.map_some']
    by_cases hno : r.invoice_no = ""
    · rw [hno] at hparse
      have hnone : parseNatDigits (lastSegment "").data = none := by decide
      rw [hnone] at hparse
      cases hparse
    · show nextFromRow _ (some r.invoice_no) = _
      simp only [nextFromRow]
      rw [if_neg hno]
      simp only [bumpSuffix, hparse]
  · intro r hsel hparse
    simp only [next_invoice_no, hsel, Option.map_some']
    by_cases hno : r.invoice_no = ""
    · show nextFromRow _ (some r.invoice_no) = _
      simp only [nextFromRow]
      rw [if_pos hno]
    · show nextFromRow _ (some r.invoice_no) = _
      simp only [nextFromRow]
      rw [if_neg hno]
      simp only [bumpSuffix, hparse]
      rw [show zfill (pyStr 1) 3 = "001" from by decide]
  · intro N
    induction N with
    | zero =>
      show nextFromRow ("HK-" ++ today ++ "-") none = _
      simp only [Nat.zero_add]
      rw [show zfill (pyStr 1) 3 = "001" from by decide]
      rfl
    | succ k ih =>
      show nextFromRow ("HK-" ++ today ++ "-") (some (seqNo today k)) = _
      rw [ih]
      simp only [nextFromRow]
      rw [if_neg (ne_empty_of_hk today _)]
      exact bumpSuffix_seq today (k + 1)

def invC3 : Invoice := ⟨3, 1, "HK-20260102-007", some 0, none⟩

def dbC3 : DB := ⟨[invC3], []⟩

/-- C3 witness: with `HK-20260102-007` as the user's latest matching invoice,
the next allocated number is `HK-20260102-008`. -/
theorem c3_witness : next_invoice_no dbC3 1 "20260102" = "HK-20260102-008" := by
  have h := (c3_theorem dbC3 1 "20260102").2.2.1 invC3 7 (by decide) (by decide)
  rw [h]
  decide

end HisabKitab
